import Mathlib

/-!
# Marketing schedule tracker — verification of the cadence-derivation engine

Shallow embedding of the pure derivation core of the single-file React app
(`MarketingTracker`): date parsing (`tryParseDate`), channel classification
(the regex token rules of the `data` memo), row normalization, task
derivation (`tasks` memo), the monthly mail aggregate (`monthAgg` memo) and
the cadence-matrix campaign grouping.

Modelling conventions:
* JS strings are Lean `String`s; per-character operations work on `String.data`.
  JS `toLowerCase`/`toUpperCase` on the ASCII range coincide with Lean's
  `Char.toLower`/`Char.toUpper`.
* A raw CSV row (a JS object produced by `Papa.parse` with `header: true`) is
  an association list from exact header names to cell strings; JS property
  access `r.Field` is exact-key lookup returning `none` for a missing key
  (JS `undefined`).
* JS numbers are modelled as exact decimals: a `JNum` is an integer
  numerator over a power of ten kept in normal form.  `Number(x)` is
  modelled for the sign/digits/fraction decimal grammar; hexadecimal,
  exponent and `Infinity` forms of the full JS grammar, and IEEE-754
  binary64 rounding (in particular the rounding of float sums), are
  outside the model.
* Calendar dates are year/month/day triples; `date-fns` `addDays` and date
  comparison go through the civil-calendar day number (dates produced by the
  engine all sit at local midnight, so day-number order equals JS `Date`
  millisecond order).
-/

namespace MarketingTracker

/-! ## Character helpers (JS semantics on the ASCII range) -/

/-- JS regex word character: `[A-Za-z0-9_]`. -/
def isWordChar (c : Char) : Bool :=
  ('a' ≤ c && c ≤ 'z') || ('A' ≤ c && c ≤ 'Z') || ('0' ≤ c && c ≤ '9') || c = '_'

/-- JS regex `\s`, restricted to the ASCII whitespace characters
(space, tab, line feed, carriage return, vertical tab, form feed). -/
def isWsChar (c : Char) : Bool :=
  c = ' ' || c = '\t' || c = '\n' || c = '\r' || c = '\x0b' || c = '\x0c'

/-- The character class `[-\s]` used by the negation-tag regexes. -/
def isDashOrWs (c : Char) : Bool := c = '-' || isWsChar c

/-- ASCII decimal digit. -/
def isDigitChar (c : Char) : Bool := '0' ≤ c && c ≤ '9'

/-- Digit value of an ASCII digit character. -/
def digitVal (c : Char) : Nat := c.toNat - '0'.toNat

/-- Numeric value of a digit string (most significant first). -/
def digitsVal (l : List Char) : Nat := l.foldl (fun acc c => acc * 10 + digitVal c) 0

/-- JS `String.prototype.trim`, on the ASCII whitespace characters. -/
def trimChars (l : List Char) : List Char :=
  ((l.dropWhile isWsChar).reverse.dropWhile isWsChar).reverse

/-! ## Calendar dates

The engine only ever holds dates at local midnight, so a civil calendar date
(year, month, day) is a faithful model of the JS `Date` values it builds. -/

structure CalDate where
  year : Int
  month : Int
  day : Int
  deriving DecidableEq, Repr

/-- Gregorian leap-year rule. -/
def isLeapYear (y : Int) : Bool :=
  y % 4 = 0 && (y % 100 ≠ 0 || y % 400 = 0)

/-- Number of days in a month of a given year. -/
def daysInMonth (y m : Int) : Int :=
  if m = 1 then 31 else if m = 2 then (if isLeapYear y then 29 else 28)
  else if m = 3 then 31 else if m = 4 then 30 else if m = 5 then 31
  else if m = 6 then 30 else if m = 7 then 31 else if m = 8 then 31
  else if m = 9 then 30 else if m = 10 then 31 else if m = 11 then 30
  else 31

/-- Civil-calendar day number (days since 1970-01-01, Hinnant's algorithm). -/
def toDayNumber (d : CalDate) : Int :=
  let y := if d.month ≤ 2 then d.year - 1 else d.year
  let era := (if 0 ≤ y then y else y - 399).fdiv 400
  let yoe := y - era * 400
  let mp := (d.month + 9).emod 12
  let doy := (153 * mp + 2).fdiv 5 + d.day - 1
  let doe := yoe * 365 + yoe.fdiv 4 - yoe.fdiv 100 + doy
  era * 146097 + doe - 719468

/-- Inverse of `toDayNumber` (Hinnant's `civil_from_days`). -/
def fromDayNumber (z : Int) : CalDate :=
  let z := z + 719468
  let era := (if 0 ≤ z then z else z - 146096).fdiv 146097
  let doe := z - era * 146097
  let yoe := (doe - doe.fdiv 1460 + doe.fdiv 36524 - doe.fdiv 146096).fdiv 365
  let y := yoe + era * 400
  let doy := doe - (365 * yoe + yoe.fdiv 4 - yoe.fdiv 100)
  let mp := (5 * doy + 2).fdiv 153
  let d := doy - (153 * mp + 2).fdiv 5 + 1
  let m := mp + (if mp < 10 then 3 else -9)
  ⟨y + (if m ≤ 2 then 1 else 0), m, d⟩

/-- `date-fns` `addDays` (time-of-day is midnight throughout the engine). -/
def addDays (d : CalDate) (n : Int) : CalDate :=
  fromDayNumber (toDayNumber d + n)

/-- Decimal digits of a nonnegative integer, padded on the left with zeros
to the given width (the behaviour of the `date-fns` padded format tokens and
of `String.prototype.padStart`). -/
def padNat (width : Nat) (n : Nat) : String :=
  let s := toString n
  let pad := width - s.length
  String.mk (List.replicate pad '0' ++ s.data)

/-- `date-fns` `format(date, "yyyy-MM-dd")` (years in the engine come from
parsed digit strings and are nonnegative). -/
def formatYMD (d : CalDate) : String :=
  padNat 4 d.year.toNat ++ "-" ++ padNat 2 d.month.toNat ++ "-" ++ padNat 2 d.day.toNat

/-! ## Date parser (`tryParseDate`)

The source tries, in order, the seven `date-fns` format patterns
`yyyy-MM-dd`, `MMM d, yyyy`, `MMMM d, yyyy`, `M/d/yyyy`, `MM/dd/yyyy`,
`M/d/yy`, `MM/dd/yy`, then `parseISO`, then the loose `new Date(string)`
constructor.  `date-fns` numeric tokens match one up to the token's width
digits; the parse fails when characters remain or when the month/day values
do not form a real calendar date.  The date-only fragment of ISO-8601 that
`parseISO` adds over the first pattern, and the `new Date` fallback (which
ECMAScript leaves implementation-defined beyond ISO-8601 date-time strings),
contribute no further date-only forms to the model. -/

/-- Split off at most `width` leading ASCII digits. -/
def splitDigits : Nat → List Char → List Char × List Char
  | 0, l => ([], l)
  | _ + 1, [] => ([], [])
  | width + 1, c :: rest =>
    if isDigitChar c then
      let p := splitDigits width rest
      (c :: p.1, p.2)
    else ([], c :: rest)

/-- Parse one up to `width` leading digits as a number (`date-fns`
`parseNDigits`); `none` when no digit leads. -/
def takeDigits (width : Nat) (l : List Char) : Option (Nat × List Char) :=
  match splitDigits width l with
  | ([], _) => none
  | (ds, r) => some (digitsVal ds, r)

/-- English month names, as matched by the `MMM`/`MMMM` tokens. -/
def monthNames : List String :=
  ["January", "February", "March", "April", "May", "June", "July",
   "August", "September", "October", "November", "December"]

/-- Case-insensitive (ASCII) prefix match, returning the rest on success. -/
def stripPrefixCI : List Char → List Char → Option (List Char)
  | [], l => some l
  | _ :: _, [] => none
  | p :: ps, c :: cs => if p.toLower = c.toLower then stripPrefixCI ps cs else none

/-- Match a month name (full name when `full`, else its 3-letter
abbreviation), returning the month number (1-12) and the rest. -/
def takeMonthName (full : Bool) (l : List Char) : Option (Nat × List Char) :=
  let fits := monthNames.enum.filterMap fun (i, name) =>
    let pat := if full then name.data else name.data.take 3
    (stripPrefixCI pat l).map fun rest => (i + 1, rest)
  fits.head?

/-- One token of a `date-fns` format pattern. -/
inductive FmtItem where
  | year4      -- yyyy
  | year2      -- yy
  | monthNum (width : Nat)  -- M / MM
  | dayNum (width : Nat)    -- d / dd
  | monthAbbr  -- MMM
  | monthFull  -- MMMM
  | lit (c : Char)
  deriving DecidableEq, Repr

/-- Partial result of running a format: year, month, day as parsed. -/
structure YMD where
  y : Nat
  m : Nat
  d : Nat
  deriving DecidableEq, Repr

/-- Map a two-digit year into a full year.  `date-fns` centers the window on
the parse's reference date (`new Date()` in the source); the model fixes the
1950-2049 window that reference dates of the 2020s produce. -/
def normalizeTwoDigitYear (v : Nat) : Nat :=
  if v < 50 then 2000 + v else 1900 + v

/-- Run a format pattern over the input, threading the fields parsed so far;
fails when a token or literal does not match. -/
def runFormat : List FmtItem → List Char → YMD → Option (YMD × List Char)
  | [], l, acc => some (acc, l)
  | FmtItem.year4 :: items, l, acc =>
    (takeDigits 4 l).bind fun (v, r) => runFormat items r { acc with y := v }
  | FmtItem.year2 :: items, l, acc =>
    (takeDigits 2 l).bind fun (v, r) =>
      runFormat items r { acc with y := normalizeTwoDigitYear v }
  | FmtItem.monthNum w :: items, l, acc =>
    (takeDigits w l).bind fun (v, r) => runFormat items r { acc with m := v }
  | FmtItem.dayNum w :: items, l, acc =>
    (takeDigits w l).bind fun (v, r) => runFormat items r { acc with d := v }
  | FmtItem.monthAbbr :: items, l, acc =>
    (takeMonthName false l).bind fun (v, r) => runFormat items r { acc with m := v }
  | FmtItem.monthFull :: items, l, acc =>
    (takeMonthName true l).bind fun (v, r) => runFormat items r { acc with m := v }
  | FmtItem.lit c :: items, l, acc =>
    match l with
    | c' :: r => if c' = c then runFormat items r acc else none
    | [] => none

/-- The format list tried by `tryParseDate`, in source order. -/
def tryFormats : List (List FmtItem) :=
  [ -- "yyyy-MM-dd"
    [.year4, .lit '-', .monthNum 2, .lit '-', .dayNum 2],
    -- "MMM d, yyyy"
    [.monthAbbr, .lit ' ', .dayNum 1, .lit ',', .lit ' ', .year4],
    -- "MMMM d, yyyy"
    [.monthFull, .lit ' ', .dayNum 1, .lit ',', .lit ' ', .year4],
    -- "M/d/yyyy"
    [.monthNum 1, .lit '/', .dayNum 1, .lit '/', .year4],
    -- "MM/dd/yyyy"
    [.monthNum 2, .lit '/', .dayNum 2, .lit '/', .year4],
    -- "M/d/yy"
    [.monthNum 1, .lit '/', .dayNum 1, .lit '/', .year2],
    -- "MM/dd/yy"
    [.monthNum 2, .lit '/', .dayNum 2, .lit '/', .year2] ]

/-- Validate the parsed fields as a real calendar date (as `date-fns`
`parse` validates month and day-of-month ranges). -/
def validateYMD (p : YMD) : Option CalDate :=
  if 1 ≤ p.m && p.m ≤ 12 && 1 ≤ p.d && (p.d : Int) ≤ daysInMonth p.y p.m then
    some ⟨p.y, p.m, p.d⟩
  else none

/-- Run one format against the whole (already trimmed) input. -/
def parseWithFormat (items : List FmtItem) (l : List Char) : Option CalDate :=
  match runFormat items l ⟨0, 0, 0⟩ with
  | some (p, []) => validateYMD p
  | _ => none

/-- `tryParseDate` on a string value (`undefined` is the `none` caller side:
the source returns `null` for every falsy argument, which for strings means
the empty string).  The trailing `parseISO` and `new Date` attempts admit no
date-only strings beyond the first format and are subsumed by it. -/
def tryParseDate (value : String) : Option CalDate :=
  if value = "" then none
  else
    let asStr := trimChars value.data
    tryFormats.foldl (fun found f => found <|> parseWithFormat f asStr) none

/-! ## JS numbers (for the `Count` and `Cost` fields)

Exact decimal numbers: `num / 10 ^ exp10`, kept in normal form
(`exp10 = 0`, or a numerator not divisible by ten) so that two `JNum`s are
equal exactly when they denote the same number.  The program's numbers are
IEEE-754 binary64; the exact-decimal model coincides with them on the
integral and short-decimal values appearing in the theorems below, but
binary64 rounding itself (under which addition is not associative) is
outside the model, and no theorem below depends on arithmetic on these
values beyond concrete literals. -/

structure JNum where
  num : Int
  exp10 : Nat
  deriving DecidableEq, Repr

namespace JNum

/-- Drop factors of ten shared by numerator and denominator. -/
def normAux : Int → Nat → JNum
  | n, 0 => ⟨n, 0⟩
  | n, e + 1 => if n.emod 10 = 0 then normAux (n.ediv 10) e else ⟨n, e + 1⟩

/-- Normal form: `exp10 = 0` or a numerator not divisible by ten. -/
def norm (a : JNum) : JNum := normAux a.num a.exp10

/-- The denoted rational value. -/
def toRat (a : JNum) : Rat := (a.num : Rat) / (10 : Rat) ^ a.exp10

/-- Exact addition (normalized). -/
def add (a b : JNum) : JNum :=
  norm ⟨a.num * 10 ^ b.exp10 + b.num * 10 ^ a.exp10, a.exp10 + b.exp10⟩

instance : Add JNum := ⟨add⟩

instance : Zero JNum := ⟨⟨0, 0⟩⟩

/-- JS falsiness of the numeric value (`x || 0` tests the value, not a
representation). -/
def isZero (a : JNum) : Bool := a.num = 0

/-- The numeric value is nonnegative. -/
def Nonneg (a : JNum) : Prop := 0 ≤ a.num

/-- The value denotes an integer. -/
def IsInt (a : JNum) : Prop := a.exp10 = 0

instance : DecidablePred Nonneg := fun a => inferInstanceAs (Decidable (0 ≤ a.num))

instance : DecidablePred IsInt := fun a => inferInstanceAs (Decidable (a.exp10 = 0))

end JNum

/-- Decimal numeral grammar of JS `Number(string)`: optional sign, then
digits with an optional fractional part (one of the two digit runs may be
empty but not both). -/
def parseDecimal (l : List Char) : Option JNum :=
  let (sign, rest) :=
    match l with
    | '-' :: r => ((-1 : Int), r)
    | '+' :: r => ((1 : Int), r)
    | r => ((1 : Int), r)
  let (ip, rest') := (rest.takeWhile isDigitChar, rest.dropWhile isDigitChar)
  match rest' with
  | [] => if ip.isEmpty then none else some (JNum.norm ⟨sign * digitsVal ip, 0⟩)
  | '.' :: frac =>
    let (fp, tail) := (frac.takeWhile isDigitChar, frac.dropWhile isDigitChar)
    if tail.isEmpty && !(ip.isEmpty && fp.isEmpty) then
      some (JNum.norm ⟨sign * (digitsVal ip * 10 ^ fp.length + digitsVal fp), fp.length⟩)
    else none
  | _ => none

/-- JS `Number` of an optional cell string: `undefined` gives `NaN` (`none`),
the empty / all-whitespace string gives `0`, and a decimal numeral its value.
Hexadecimal, exponent and `Infinity` forms are outside the model. -/
def jsNumber : Option String → Option JNum
  | none => none
  | some s =>
    let t := trimChars s.data
    if t.isEmpty then some 0 else parseDecimal t

/-- `Number(x) || 0` — the source's coercion with NaN (and a zero value
itself) falling back to `0`. -/
def jsNumberOrZero (s : Option String) : JNum :=
  match jsNumber s with
  | some v => if v.isZero then 0 else v
  | none => 0

/-! ## Channel classifier token regexes

The source tests seven regexes against the lower-cased concatenation of the
`Tags` and `Channels` cells.  Every pattern has the shape
`\b(alt | ... | alt)\b` where each alternative is a sequence of literal
characters, an optional `[-\s]` character, or a `\s*` run; the model is a
direct matcher for exactly this shape.  A `\b` boundary holds between a word
character and a non-word character or a string edge; all alternatives start
and end in a letter, so the boundary conditions reduce to the neighbouring
character not being a word character. -/

/-- One atom of a pattern alternative. -/
inductive Atom where
  | lit (c : Char)   -- a literal character
  | optDashWs        -- the optional class of no[-\s]?
  | starWs           -- the whitespace run of voice\s*mail
  deriving DecidableEq, Repr

/-- All suffixes left over after matching the atom sequence at the front of
the input (fueled; every step consumes an atom or a character, so
`atoms.length + input.length + 1` fuel is always enough). -/
def matchAtomsF : Nat → List Atom → List Char → List (List Char)
  | 0, _, _ => []
  | _ + 1, [], s => [s]
  | _ + 1, Atom.lit _ :: _, [] => []
  | fuel + 1, Atom.lit c :: atoms, x :: xs =>
    if x = c then matchAtomsF fuel atoms xs else []
  | fuel + 1, Atom.optDashWs :: atoms, s =>
    matchAtomsF fuel atoms s ++
      (match s with
       | x :: xs => if isDashOrWs x then matchAtomsF fuel atoms xs else []
       | [] => [])
  | fuel + 1, Atom.starWs :: atoms, s =>
    matchAtomsF fuel atoms s ++
      (match s with
       | x :: xs => if isWsChar x then matchAtomsF fuel (Atom.starWs :: atoms) xs else []
       | [] => [])

def matchAtoms (atoms : List Atom) (s : List Char) : List (List Char) :=
  matchAtomsF (atoms.length + s.length + 1) atoms s

/-- `\b` holds before the match: the previous character (if any) is not a
word character (every alternative starts with a letter). -/
def boundaryBefore : Option Char → Bool
  | none => true
  | some c => !isWordChar c

/-- `\b` holds after the match: the remaining input does not begin with a
word character (every alternative ends with a letter). -/
def boundaryAfter : List Char → Bool
  | [] => true
  | c :: _ => !isWordChar c

/-- Some alternative matches at the current position with both boundaries. -/
def matchesHere (alts : List (List Atom)) (prev : Option Char) (s : List Char) : Bool :=
  boundaryBefore prev && alts.any fun alt => (matchAtoms alt s).any boundaryAfter

/-- Scan every position of the input for a boundary-delimited match. -/
def searchFrom (alts : List (List Atom)) (prev : Option Char) : List Char → Bool
  | [] => false
  | c :: cs => matchesHere alts prev (c :: cs) || searchFrom alts (some c) cs

/-- `regex.test(src)`: does the token pattern match anywhere? -/
def searchTok (alts : List (List Atom)) (s : List Char) : Bool :=
  searchFrom alts none s

/-- Literal atoms of a word. -/
def lits (w : String) : List Atom := w.data.map Atom.lit

/-- `\bno[-\s]?mail\b` -/
def noMailAlts : List (List Atom) := [lits "no" ++ [Atom.optDashWs] ++ lits "mail"]

/-- `\bmail\b` (a strict token: does not match inside "voicemail") -/
def mailAlts : List (List Atom) := [lits "mail"]

/-- `\b(text|sms)\b` -/
def textAlts : List (List Atom) := [lits "text", lits "sms"]

/-- `\b(voicemail|voice\s*mail|vm|vmail)\b` -/
def vmAlts : List (List Atom) :=
  [lits "voicemail", lits "voice" ++ [Atom.starWs] ++ lits "mail", lits "vm", lits "vmail"]

/-- `\b(mail|text|sms|voicemail|voice\s*mail|vm|vmail)\b` -/
def anyAlts : List (List Atom) :=
  [lits "mail", lits "text", lits "sms",
   lits "voicemail", lits "voice" ++ [Atom.starWs] ++ lits "mail", lits "vm", lits "vmail"]

/-- `\bno[-\s]?(text|sms)\b` -/
def noTextAlts : List (List Atom) :=
  [lits "no" ++ [Atom.optDashWs] ++ lits "text",
   lits "no" ++ [Atom.optDashWs] ++ lits "sms"]

/-- `\bno[-\s]?(voicemail|voice\s*mail|vm|vmail)\b` -/
def noVmAlts : List (List Atom) :=
  [lits "no" ++ [Atom.optDashWs] ++ lits "voicemail",
   lits "no" ++ [Atom.optDashWs] ++ lits "voice" ++ [Atom.starWs] ++ lits "mail",
   lits "no" ++ [Atom.optDashWs] ++ lits "vm",
   lits "no" ++ [Atom.optDashWs] ++ lits "vmail"]

/-- The search string: lower-cased `Tags`, a space, lower-cased `Channels`. -/
def srcOf (tags channels : String) : List Char :=
  (tags.data.map Char.toLower) ++ [' '] ++ (channels.data.map Char.toLower)

def hasNoMailTagOf (tags channels : String) : Bool := searchTok noMailAlts (srcOf tags channels)

def hasMailTokenOf (tags channels : String) : Bool := searchTok mailAlts (srcOf tags channels)

def hasTextTokenOf (tags channels : String) : Bool := searchTok textAlts (srcOf tags channels)

def hasVmTokenOf (tags channels : String) : Bool := searchTok vmAlts (srcOf tags channels)

def anyTokenOf (tags channels : String) : Bool := searchTok anyAlts (srcOf tags channels)

def noTextOf (tags channels : String) : Bool := searchTok noTextAlts (srcOf tags channels)

def noVMOf (tags channels : String) : Bool := searchTok noVmAlts (srcOf tags channels)

/-! ## Channel flag derivation -/

structure ChannelFlags where
  hasMail : Bool
  hasText : Bool
  hasVM : Bool
  deriving DecidableEq, Repr

/-- The flag derivation of the `data` memo, as the source writes it: three
initial assignments followed by four conditional reassignments, in order. -/
def deriveFlags (hasNoMailTag hasMailToken hasTextToken hasVmToken anyToken noText noVM : Bool) :
    ChannelFlags :=
  let hasMail := hasMailToken && !hasNoMailTag
  let hasText := hasTextToken
  let hasVM := hasVmToken
  let p := if !anyToken then (!hasNoMailTag, true, true) else (hasMail, hasText, hasVM)
  let hasMail := p.1
  let hasText := p.2.1
  let hasVM := p.2.2
  let hasText := if hasMail && !noText then true else hasText
  let hasVM := if hasMail && !noVM then true else hasVM
  let hasText := if noText then false else hasText
  let hasVM := if noVM then false else hasVM
  ⟨hasMail, hasText, hasVM⟩

/-- Channel classification of one row from its `Tags`/`Channels` cells. -/
def classifyChannels (tags channels : String) : ChannelFlags :=
  deriveFlags (hasNoMailTagOf tags channels) (hasMailTokenOf tags channels)
    (hasTextTokenOf tags channels) (hasVmTokenOf tags channels)
    (anyTokenOf tags channels) (noTextOf tags channels) (noVMOf tags channels)

/-- The five derivation rules exactly as the specification numbers them
(§4.2): each step is a separate transformation of the flag triple, applied
in sequence. -/
def channelStepsSpec (hasNoMailTag hasMailToken hasTextToken hasVmToken anyToken noText noVM : Bool) :
    ChannelFlags :=
  -- step 1
  let f : ChannelFlags := ⟨hasMailToken && !hasNoMailTag, hasTextToken, hasVmToken⟩
  -- step 2: no channel information at all defaults to a full campaign
  let f : ChannelFlags := if anyToken = false then ⟨!hasNoMailTag, true, true⟩ else f
  -- step 3: mail implies a text follow-up unless suppressed
  let f : ChannelFlags := if f.hasMail = true && noText = false then { f with hasText := true } else f
  -- step 4: mail implies a voicemail follow-up unless suppressed
  let f : ChannelFlags := if f.hasMail = true && noVM = false then { f with hasVM := true } else f
  -- step 5: negation wins last
  let f : ChannelFlags := if noText = true then { f with hasText := false } else f
  let f : ChannelFlags := if noVM = true then { f with hasVM := false } else f
  f

/-! ## Raw rows and normalization (the `data` memo) -/

/-- A parsed CSV row: exact header names to cell strings.  JS property
access on the row object is exact-key lookup; a missing key is `undefined`
(`none`). -/
abbrev RawRow := List (String × String)

/-- `r.Field` / `r["Field"]`. -/
def rowGet (r : RawRow) (k : String) : Option String :=
  (r.find? fun p => p.1 = k).map fun p => p.2

/-- `x || ""` on a cell: `undefined` and the empty string both give the
default (the only falsy strings). -/
def jsOrEmpty (v : Option String) : String :=
  match v with
  | some s => if s = "" then "" else s
  | none => ""

/-- `x || d` on a cell with a non-empty default (`r.Campaign || "(Unnamed)"`). -/
def jsOrDefault (v : Option String) (d : String) : String :=
  match v with
  | some s => if s = "" then d else s
  | none => d

/-- `tryParseDate(r["Red - Adjusted Dates"] || r.Date)`: the adjusted cell,
when truthy (present and non-empty), is the only string parsed; the primary
`Date` cell is used only when the adjusted cell is absent or empty. -/
def resolveDate (r : RawRow) : Option CalDate :=
  tryParseDate (jsOrEmpty (rowGet r "Red - Adjusted Dates" |>.filter (· ≠ "") |>.orElse
    fun _ => rowGet r "Date"))

/-- `inferBatchNum`: every digit of `part`, a space, then `batch`, in order;
`parseInt` of the digit string, absent when there are no digits. -/
def inferBatchNum (part batch : String) : Option Nat :=
  let pick := part ++ " " ++ batch
  let digits := pick.data.filter isDigitChar
  if digits.isEmpty then none else some (digitsVal digits)

/-- A normalized campaign event (one element of the `data` memo's output). -/
structure NEvent where
  id : Nat
  raw : RawRow
  mailDate : CalDate
  hasMail : Bool
  hasText : Bool
  hasVM : Bool
  count : JNum
  campaign : String
  category : String
  part : String
  batch : String
  batchNum : Option Nat
  cost : JNum
  deriving DecidableEq, Repr

/-- Normalize one raw row at index `i`; `none` exactly when no date
resolves (the source maps rows to objects and then filters on a truthy
`mailDate`, which fuses to this). -/
def normalizeRow (i : Nat) (r : RawRow) : Option NEvent :=
  (resolveDate r).map fun d =>
    let flags := classifyChannels (jsOrEmpty (rowGet r "Tags")) (jsOrEmpty (rowGet r "Channels"))
    let part := jsOrEmpty (rowGet r "Part")
    let batch := jsOrEmpty (rowGet r "Batch")
    { id := i
      raw := r
      mailDate := d
      hasMail := flags.hasMail
      hasText := flags.hasText
      hasVM := flags.hasVM
      count := jsNumberOrZero (rowGet r "Count")
      campaign := jsOrDefault (rowGet r "Campaign") "(Unnamed)"
      category := jsOrEmpty (rowGet r "Category")
      part := part
      batch := batch
      batchNum := inferBatchNum part batch
      cost := jsNumberOrZero (rowGet r "Cost") }

def normalizeFrom (i : Nat) : List RawRow → List NEvent
  | [] => []
  | r :: rest =>
    match normalizeRow i r with
    | some e => e :: normalizeFrom (i + 1) rest
    | none => normalizeFrom (i + 1) rest

/-- The `data` memo: map rows to normalized events, dropping rows without a
resolvable date. -/
def normalizeRows (rows : List RawRow) : List NEvent := normalizeFrom 0 rows

/-! ## Cadence labels -/

/-- JS `ordinal(n)`: `n + (s[(v-20)%10] || s[v] || s[0])` with
`s = ["th","st","nd","rd"]` and `v = n % 100`; for `v < 20` the first index
is negative and reads `undefined`. -/
def ordinalStr (n : Nat) : String :=
  let s := ["th", "st", "nd", "rd"]
  let v := n % 100
  let first := if 20 ≤ v then s.get? ((v - 20) % 10) else none
  toString n ++ ((first <|> s.get? v).getD "th")

/-- `stageForBatch`: `!n || n <= 1` covers an absent batch number and 0/1. -/
def stageForBatch : Option Nat → String
  | none => "Initial"
  | some n =>
    if n = 0 || n ≤ 1 then "Initial"
    else if 5 ≤ n then "Final"
    else ordinalStr n ++ " Follow-up"

/-! ## Task derivation (the `tasks` memo) -/

inductive TaskType where
  | mail
  | text
  | vm
  deriving DecidableEq, Repr

def TaskType.str : TaskType → String
  | .mail => "mail"
  | .text => "text"
  | .vm => "vm"

structure Task where
  type : TaskType
  date : CalDate
  idKey : String
  stage : Option String
  label : String
  count : JNum
  ref : NEvent
  deriving DecidableEq, Repr

/-- `[r.part, r.batch].filter(Boolean).join(" • ")`. -/
def partBatchOf (e : NEvent) : String :=
  String.intercalate " • " (([e.part, e.batch]).filter (· ≠ ""))

/-- The identity key: `type|yyyy-MM-dd|campaign|part|batch`. -/
def idKeyOf (t : TaskType) (d : CalDate) (e : NEvent) : String :=
  t.str ++ "|" ++ formatYMD d ++ "|" ++ e.campaign ++ "|" ++ e.part ++ "|" ++ e.batch

/-- Label suffix shared by the three task kinds. -/
def labelSuffix (e : NEvent) : String :=
  e.campaign ++ (if partBatchOf e ≠ "" then " • " ++ partBatchOf e else "")

/-- Emit the 0-3 tasks of one normalized event, in source order: mail at
the event date, then text and vm at the follow-up date (event date + 13
days when mail is present, the event date itself otherwise). -/
def tasksForRow (e : NEvent) : List Task :=
  let t0 := e.mailDate
  let follow := if e.hasMail then addDays t0 13 else t0
  (if e.hasMail then
    [{ type := .mail, date := t0, idKey := idKeyOf .mail t0 e, stage := none,
       label := "Mail • " ++ labelSuffix e, count := e.count, ref := e }]
   else []) ++
  (if e.hasText then
    [{ type := .text, date := follow, idKey := idKeyOf .text follow e,
       stage := some (stageForBatch e.batchNum),
       label := "Text • " ++ labelSuffix e, count := e.count, ref := e }]
   else []) ++
  (if e.hasVM then
    [{ type := .vm, date := follow, idKey := idKeyOf .vm follow e,
       stage := some (stageForBatch e.batchNum),
       label := "VM • " ++ labelSuffix e, count := e.count, ref := e }]
   else [])

/-- `items.sort((a, b) => a.date - b.date)`: a stable sort on the date
(numeric comparison of the underlying day values). -/
def deriveTasks (data : List NEvent) : List Task :=
  (data.flatMap tasksForRow).insertionSort
    fun a b => toDayNumber a.date ≤ toDayNumber b.date

/-! ## Monthly mail aggregate (the `monthAgg` memo)

Structural model of the fold and sort.  The totals the program computes are
IEEE-754 binary64 sums (`(map.get(key) || 0) + r.count`), whose rounding is
outside this embedding; no theorem below states numeric properties of the
aggregate's totals. -/

/-- The month key: year, a dash, the two-digit-padded month number. -/
def monthKeyOf (d : CalDate) : String :=
  toString d.year ++ "-" ++ padNat 2 d.month.toNat

/-- `map.set(key, (map.get(key) || 0) + r.count)` on an insertion-ordered
map: an existing key keeps its position, a new key is appended. -/
def mapBump (m : List (String × JNum)) (k : String) (c : JNum) : List (String × JNum) :=
  if m.any fun p => p.1 == k then
    m.map fun p => if p.1 = k then (p.1, (if p.2.isZero then 0 else p.2) + c) else p
  else m ++ [(k, (0 : JNum) + c)]

/-- One step of the `monthAgg` loop. -/
def monthStep (m : List (String × JNum)) (r : NEvent) : List (String × JNum) :=
  if r.hasMail then mapBump m (monthKeyOf r.mailDate) r.count else m

/-- Fold of the `monthAgg` loop over the events. -/
def monthMap (data : List NEvent) : List (String × JNum) :=
  data.foldl monthStep []

/-- The `monthAgg` memo: entries of the insertion-ordered map, sorted by
key (`localeCompare` on these digits-and-dash keys is lexicographic byte
order). -/
def monthAgg (data : List NEvent) : List (String × JNum) :=
  (monthMap data).insertionSort fun a b => a.1 ≤ b.1

/-! ## Cadence matrix campaign grouping -/

/-- Index of the last occurrence of `" - "` (JS `lastIndexOf`), as the
position plus the split: `some (before, after)` splits around the last
separator. -/
def splitLastSep : List Char → Option (List Char × List Char)
  | [] => none
  | c :: rest =>
    match splitLastSep rest with
    | some (pre, suf) => some (c :: pre, suf)
    | none =>
      match c, rest with
      | ' ', '-' :: ' ' :: tail => some ([], tail)
      | _, _ => none

/-- First ASCII letter of `part`, upper-cased (the source loops over the
characters and upper-cases each before testing `A-Z`). -/
def firstLetterU : List Char → Option Char
  | [] => none
  | c :: rest =>
    let ch := c.toUpper
    if 'A' ≤ ch && ch ≤ 'Z' then some ch else firstLetterU rest

/-- The suffix strip of the grouping IIFE: keep the text before the last
`" - "` when the text after it, trimmed, upper-cases to a single `A`-`Z`
letter (the source's `idx + 3 <= base.length` guard is implied by the
separator being found). -/
def stripCampaignBase (base : List Char) : List Char :=
  match splitLastSep base with
  | some (pre, suf) =>
    match trimChars suf with
    | [c] => if 'A' ≤ c.toUpper && c.toUpper ≤ 'Z' then pre else base
    | _ => base
  | none => base

/-- The cadence-matrix group key: trim the campaign, strip a trailing
letter suffix, then append `" - "` plus the first letter found in `part`
(if any). -/
def cadenceGroupKey (campaign part : String) : String :=
  let base := stripCampaignBase (trimChars campaign.data)
  match firstLetterU part.data with
  | some l => String.mk (base ++ (" - ").data ++ [l])
  | none => String.mk base

/-! ## Derived notions used by the statements -/

/-- ASCII letter of either case (via the same upper-casing the source
applies). -/
def isLetterCI (c : Char) : Bool := 'A' ≤ c.toUpper && c.toUpper ≤ 'Z'

/-- The campaign-identity rule in the (amended) spec's phrasing: trim the
campaign; when the text after the last `" - "`, trimmed, is one character
long and consists of an ASCII letter of either case, the base is the text
before that separator, else the whole trimmed string; the identity appends
`" - "` plus the upper-cased first ASCII letter of `part` to the base, or
is the base alone when `part` has no ASCII letter. -/
def stripBaseSpec (t : List Char) : List Char :=
  match splitLastSep t with
  | some (pre, suf) =>
    if (trimChars suf).length = 1 && (trimChars suf).all isLetterCI then pre else t
  | none => t

def campaignIdentitySpec (campaign part : String) : String :=
  let base := stripBaseSpec (trimChars campaign.data)
  match ((part.data.filter isLetterCI).head?).map Char.toUpper with
  | some l => String.mk (base ++ (" - ").data ++ [l])
  | none => String.mk base

/-! ## Theorems -/

/-- The flag derivation agrees with the five-step spec derivation for every
combination of token values. -/
theorem deriveFlags_eq_steps (a b c d e f g : Bool) :
    deriveFlags a b c d e f g = channelStepsSpec a b c d e f g := by
  revert a b c d e f g
  decide

/-- C1: the channel flags of every row follow the five rules of §4.2 in
exactly the spec's order (token extraction as the code computes it); in
particular "voicemail" alone yields no mail flag, and an empty search
string with no no-mail tag yields all three flags. -/
theorem channel_flags_follow_spec_order :
    (∀ tags channels, classifyChannels tags channels =
        channelStepsSpec (hasNoMailTagOf tags channels) (hasMailTokenOf tags channels)
          (hasTextTokenOf tags channels) (hasVmTokenOf tags channels)
          (anyTokenOf tags channels) (noTextOf tags channels) (noVMOf tags channels)) ∧
      (classifyChannels "voicemail" "").hasMail = false ∧
      classifyChannels "" "" = ⟨true, true, true⟩ :=
  ⟨fun tags channels => deriveFlags_eq_steps _ _ _ _ _ _ _, by decide, by decide⟩

/-- Matching a concatenated list of alternatives is the disjunction of
matching each part. -/
theorem matchesHere_append (a b : List (List Atom)) (prev : Option Char) (s : List Char) :
    matchesHere (a ++ b) prev s = (matchesHere a prev s || matchesHere b prev s) := by
  simp [matchesHere, List.any_append, Bool.and_or_distrib_left]

/-- Scanning for a concatenated list of alternatives is the disjunction of
the two scans. -/
theorem searchFrom_append (a b : List (List Atom)) :
    ∀ (s : List Char) (prev : Option Char),
      searchFrom (a ++ b) prev s = (searchFrom a prev s || searchFrom b prev s) := by
  intro s
  induction s with
  | nil => intro prev; rfl
  | cons c cs ih =>
    intro prev
    simp only [searchFrom, matchesHere_append, ih]
    cases matchesHere a prev (c :: cs) <;> cases matchesHere b prev (c :: cs) <;>
      cases searchFrom a (some c) cs <;> simp

/-- C4 counterexample: for the search string built from tags "nomail", the
no-mail tag class matches but `anyToken` is false — `anyToken` is not the
disjunction of all four token classes. -/
theorem anyToken_counterexample :
    ¬ (anyTokenOf "nomail" "" =
        (hasNoMailTagOf "nomail" "" || hasMailTokenOf "nomail" "" ||
          hasTextTokenOf "nomail" "" || hasVmTokenOf "nomail" "")) := by
  decide

/-- C4 (amended): `anyToken` is the disjunction of the three channel token
classes (mail, text, vm) only; the no-mail tag class is not part of it, so
a row tagged only "nomail" has `anyToken` false and receives the
default-all-channels rule of step 2 (text and voicemail, no mail). -/
theorem anyToken_amended :
    (∀ tags channels, anyTokenOf tags channels =
        (hasMailTokenOf tags channels || hasTextTokenOf tags channels ||
          hasVmTokenOf tags channels)) ∧
      anyTokenOf "nomail" "" = false ∧
      hasNoMailTagOf "nomail" "" = true ∧
      classifyChannels "nomail" "" = ⟨false, true, true⟩ := by
  refine ⟨fun tags channels => ?_, by decide, by decide, by decide⟩
  have h : anyAlts = mailAlts ++ (textAlts ++ vmAlts) := rfl
  simp only [anyTokenOf, hasMailTokenOf, hasTextTokenOf, hasVmTokenOf, searchTok, h,
    searchFrom_append, Bool.or_assoc]

/-- C5: the code reads row fields with exact-case property access, so a row
whose headers differ only in letter case from the expected names is not
normalized to the same event — lower-cased headers lose the date (the row
is dropped) while the exact headers keep it.  This contradicts the source's
own schema comment ("flexible, case-insensitive match") and §3/§6 of the
spec. -/
theorem case_sensitive_headers_drop_row :
    normalizeRows [[("date", "2025-08-26"), ("campaign", "DM 1"), ("count", "5")]] = [] ∧
      (normalizeRows [[("Date", "2025-08-26"), ("Campaign", "DM 1"), ("Count", "5")]]).length = 1 := by
  decide

/-- The source's letter scan over `part` is the head of the
letters-only filter, upper-cased. -/
theorem firstLetterU_eq_filter_head (l : List Char) :
    firstLetterU l = ((l.filter isLetterCI).head?).map Char.toUpper := by
  induction l with
  | nil => rfl
  | cons c rest ih =>
    by_cases h : isLetterCI c = true
    · simp only [isLetterCI] at h
      simp [firstLetterU, List.filter, h, isLetterCI]
    · simp only [isLetterCI] at h
      simp only [Bool.not_eq_true] at h
      simp [firstLetterU, List.filter, h, isLetterCI, ih]

/-- C6 counterexample: the scan of `part` takes its first letter, the 'B'
of "Batch", so ("DM 1", "Batch A") yields "DM 1 - B", not the claimed
"DM 1 - A"; a trailing `" - A"` suffix is stripped even when `part` has no
letter, so ("DM 1 - A", "") yields "DM 1", not the claimed "DM 1 - A"; and
a lower-case `" - a"` suffix is stripped as well, where the claim's
uppercase-only rule would leave "DM 1 - a" unchanged. -/
theorem cadence_identity_counterexample :
    (cadenceGroupKey "DM 1" "Batch A" = "DM 1 - B" ∧ "DM 1 - B" ≠ "DM 1 - A") ∧
      (cadenceGroupKey "DM 1 - A" "" = "DM 1" ∧ "DM 1" ≠ "DM 1 - A") ∧
      (cadenceGroupKey "DM 1 - a" "" = "DM 1" ∧ "DM 1" ≠ "DM 1 - a") := by
  decide

/-- The code's strip of a trailing letter suffix agrees with the spec-worded
single-ASCII-letter-of-either-case formulation. -/
theorem stripBase_eq (t : List Char) : stripCampaignBase t = stripBaseSpec t := by
  unfold stripCampaignBase stripBaseSpec
  cases hsplit : splitLastSep t with
  | none => rfl
  | some pr =>
    obtain ⟨pre, suf⟩ := pr
    cases htrim : trimChars suf with
    | nil => simp [htrim]
    | cons c rest =>
      cases rest with
      | nil => simp [htrim, isLetterCI]
      | cons c' rest' => simp [htrim]

/-- C6 (amended): the campaign group identity strips a trailing `" - X"`
suffix whose trimmed `X` is a single ASCII letter of either case, and
appends `" - "` plus the upper-cased first ASCII letter found scanning
`part` left-to-right when one exists — the stripped base alone otherwise,
including when the campaign carried a letter suffix.  In particular
("DM 1", "Batch A") → "DM 1 - B" (the 'B' of "Batch" comes first) and
("DM 1 - A", "") → "DM 1". -/
theorem cadence_identity_amended :
    (∀ campaign part, cadenceGroupKey campaign part = campaignIdentitySpec campaign part) ∧
      cadenceGroupKey "DM 1" "Batch A" = "DM 1 - B" ∧
      cadenceGroupKey "DM 1 - A" "Batch B" = "DM 1 - B" ∧
      cadenceGroupKey "DM 1 - A" "" = "DM 1" ∧
      cadenceGroupKey "DM 1 - a" "Batch B" = "DM 1 - B" := by
  refine ⟨fun campaign part => ?_, by decide, by decide, by decide, by decide⟩
  unfold cadenceGroupKey campaignIdentitySpec
  rw [firstLetterU_eq_filter_head, stripBase_eq]

/-- Count of rows whose date does not resolve, plus the events produced,
covers exactly the row list. -/
theorem normalizeFrom_length (i : Nat) (rows : List RawRow) :
    (normalizeFrom i rows).length + (rows.countP fun r => (resolveDate r).isNone) = rows.length := by
  induction rows generalizing i with
  | nil => rfl
  | cons r rest ih =>
    simp only [normalizeFrom, List.countP_cons]
    cases h : resolveDate r with
    | none =>
      simp [normalizeRow, h]
      have := ih (i + 1)
      omega
    | some d =>
      simp [normalizeRow, h]
      have := ih (i + 1)
      omega

/-- C8: normalization keeps exactly the rows with a resolvable date — the
event count never exceeds the row count, and the difference is exactly the
number of rows whose date fails to resolve (such rows vanish from the
output; there is no error channel). -/
theorem normalization_drops_exactly_unparseable_dates (rows : List RawRow) :
    (normalizeRows rows).length ≤ rows.length ∧
      (normalizeRows rows).length + (rows.countP fun r => (resolveDate r).isNone) = rows.length := by
  have h := normalizeFrom_length 0 rows
  unfold normalizeRows
  exact ⟨by omega, h⟩

/-- Every produced event records its source row and copies the numeric
fields through the JS `Number` coercion. -/
theorem normalizeRow_fields {j : Nat} {r : RawRow} {e : NEvent} (h : normalizeRow j r = some e) :
    e.raw = r ∧ e.count = jsNumberOrZero (rowGet r "Count") ∧
      e.cost = jsNumberOrZero (rowGet r "Cost") := by
  unfold normalizeRow at h
  cases hd : resolveDate r with
  | none => rw [hd] at h; exact absurd h (by simp)
  | some d =>
    rw [hd] at h
    simp only [Option.map_some', Option.some_inj] at h
    subst h
    exact ⟨rfl, rfl, rfl⟩

/-- Membership in the normalized output comes from normalizing some row of
the input. -/
theorem normalizeFrom_mem {e : NEvent} :
    ∀ (i : Nat) (rows : List RawRow), e ∈ normalizeFrom i rows →
      ∃ j r, r ∈ rows ∧ normalizeRow j r = some e := by
  intro i rows
  induction rows generalizing i with
  | nil => intro h; exact absurd h (by simp [normalizeFrom])
  | cons r rest ih =>
    intro h
    simp only [normalizeFrom] at h
    cases hr : normalizeRow i r with
    | none =>
      rw [hr] at h
      obtain ⟨j, r', hmem, hrow⟩ := ih (i + 1) h
      exact ⟨j, r', List.mem_cons_of_mem _ hmem, hrow⟩
    | some ev =>
      rw [hr] at h
      rcases List.mem_cons.mp h with rfl | h'
      · exact ⟨i, r, List.mem_cons_self _ _, hr⟩
      · obtain ⟨j, r', hmem, hrow⟩ := ih (i + 1) h'
        exact ⟨j, r', List.mem_cons_of_mem _ hmem, hrow⟩

/-- C9 counterexample: a `Count` cell of "-5" normalizes to a negative
count, and "2.5" to a fractional one — the count is not always a
non-negative integer. -/
theorem count_nonneg_counterexample :
    ((normalizeRows [[("Date", "2025-08-26"), ("Count", "-5")]]).map fun e => e.count) =
        [⟨-5, 0⟩] ∧
      ¬ JNum.Nonneg ⟨-5, 0⟩ ∧
      ((normalizeRows [[("Date", "2025-08-26"), ("Count", "2.5")]]).map fun e => e.count) =
        [⟨25, 1⟩] ∧
      ¬ JNum.IsInt ⟨25, 1⟩ := by
  decide

/-- C9 (amended): a normalized event's count (and cost) equals the JS
numeric coercion of the row's `Count` (`Cost`) cell, with `0` for an
unparseable cell; it is not in general a non-negative integer — that holds
only when the cell is a plain digit string. -/
theorem count_equals_number_coercion :
    ∀ (rows : List RawRow) (e : NEvent), e ∈ normalizeRows rows →
      e.count = jsNumberOrZero (rowGet e.raw "Count") ∧
        e.cost = jsNumberOrZero (rowGet e.raw "Cost") ∧
        (jsNumber (rowGet e.raw "Count") = none → e.count = 0) := by
  intro rows e hmem
  obtain ⟨j, r, _, hrow⟩ := normalizeFrom_mem 0 rows hmem
  obtain ⟨hraw, hcount, hcost⟩ := normalizeRow_fields hrow
  subst hraw
  refine ⟨hcount, hcost, fun hnone => ?_⟩
  rw [hcount]
  unfold jsNumberOrZero
  rw [hnone]

/-- C9 amended-claim witness at a concrete row (no `Count` cell: the
coercion is NaN and the count is zero). -/
theorem count_equals_number_coercion_witness :
    ({ id := 0, raw := [("Date", "2025-08-26")], mailDate := ⟨2025, 8, 26⟩, hasMail := true,
        hasText := true, hasVM := true, count := ⟨0, 0⟩, campaign := "(Unnamed)", category := "",
        part := "", batch := "", batchNum := none, cost := ⟨0, 0⟩ } : NEvent).count =
      jsNumberOrZero (rowGet [("Date", "2025-08-26")] "Count") :=
  (count_equals_number_coercion [[("Date", "2025-08-26")]] _ (by decide)).1

/-- C10: when the "Red - Adjusted Dates" cell is present and non-empty, it
is the only string the date resolution parses — a failed parse drops the
row even when `Date` holds a parseable date; the `Date` cell is consulted
exactly when the adjusted cell is absent or empty. -/
theorem adjusted_date_never_falls_back :
    (∀ (r : RawRow) (adj : String),
        rowGet r "Red - Adjusted Dates" = some adj → adj ≠ "" → tryParseDate adj = none →
          resolveDate r = none) ∧
      (∀ r : RawRow,
        rowGet r "Red - Adjusted Dates" = none ∨ rowGet r "Red - Adjusted Dates" = some "" →
          resolveDate r = tryParseDate (jsOrEmpty (rowGet r "Date"))) := by
  constructor
  · intro r adj hget hne hparse
    unfold resolveDate
    rw [hget]
    simp [Option.filter, hne, jsOrEmpty, hparse]
  · intro r h
    unfold resolveDate
    rcases h with h | h <;> rw [h] <;> simp [Option.filter, Option.orElse]

/-- C10 witness: a row whose adjusted cell is unparseable is dropped even
though its `Date` cell parses. -/
theorem adjusted_date_never_falls_back_witness :
    resolveDate [("Red - Adjusted Dates", "not-a-date"), ("Date", "2025-08-26")] = none ∧
      (tryParseDate "2025-08-26").isSome = true :=
  ⟨adjusted_date_never_falls_back.1 _ "not-a-date" (by decide) (by decide) (by decide),
    by decide⟩

/-- C3: a mail task is emitted at the event date iff `hasMail`; a text
(resp. vm) task is emitted iff `hasText` (resp. `hasVM`), dated thirteen
days after the event date when mail is present and at the event date
otherwise.  Concretely, a full-channel event on 2025-08-26 produces a mail
task on 2025-08-26 and text/vm follow-ups on 2025-09-08. -/
theorem task_emission_and_dating :
    (∀ e : NEvent,
        ((∃ t ∈ tasksForRow e, t.type = TaskType.mail) ↔ e.hasMail = true) ∧
        ((∃ t ∈ tasksForRow e, t.type = TaskType.text) ↔ e.hasText = true) ∧
        ((∃ t ∈ tasksForRow e, t.type = TaskType.vm) ↔ e.hasVM = true) ∧
        (∀ t ∈ tasksForRow e, t.type = TaskType.mail → t.date = e.mailDate) ∧
        (∀ t ∈ tasksForRow e, t.type = TaskType.text ∨ t.type = TaskType.vm →
          t.date = if e.hasMail then addDays e.mailDate 13 else e.mailDate)) ∧
      (∀ e : NEvent, e.mailDate = ⟨2025, 8, 26⟩ → e.hasMail = true → e.hasText = true →
        e.hasVM = true →
        (tasksForRow e).map (fun t => (t.type, t.date)) =
          [(TaskType.mail, ⟨2025, 8, 26⟩), (TaskType.text, ⟨2025, 9, 8⟩),
            (TaskType.vm, ⟨2025, 9, 8⟩)]) := by
  constructor
  · intro e
    cases hm : e.hasMail <;> cases ht : e.hasText <;> cases hv : e.hasVM <;>
      simp [tasksForRow, hm, ht, hv]
  · intro e hd hm ht hv
    simp [tasksForRow, hm, ht, hv, hd]
    all_goals decide

/-- C3 witness: the sample full-channel event dated 2025-08-26. -/
theorem task_emission_and_dating_witness :
    (tasksForRow
      { id := 0, raw := [], mailDate := ⟨2025, 8, 26⟩, hasMail := true,
        hasText := true, hasVM := true, count := ⟨2444, 0⟩, campaign := "DM3-B",
        category := "FL", part := "Batch 2", batch := "B2", batchNum := some 22,
        cost := ⟨0, 0⟩ }).map (fun t => (t.type, t.date)) =
      [(TaskType.mail, ⟨2025, 8, 26⟩), (TaskType.text, ⟨2025, 9, 8⟩),
        (TaskType.vm, ⟨2025, 9, 8⟩)] :=
  task_emission_and_dating.2 _ rfl rfl rfl rfl

/-- Every task a row emits carries the composite identity key built from
its type, its own date and the originating event's campaign, part and
batch. -/
theorem tasksForRow_idKey {e : NEvent} {t : Task} (h : t ∈ tasksForRow e) :
    t.idKey = t.type.str ++ "|" ++ formatYMD t.date ++ "|" ++ t.ref.campaign ++ "|" ++
      t.ref.part ++ "|" ++ t.ref.batch := by
  simp only [tasksForRow, List.mem_append] at h
  rcases h with (h | h) | h <;>
    (split at h <;> simp only [List.mem_singleton, List.not_mem_nil] at h) <;>
    (subst h; rfl)

/-- C2: re-running the normalization-and-derivation pipeline on the same
row list yields identical output (the pipeline is a pure function of the
rows), and every derived task's identity key is exactly
`type|yyyy-MM-dd|campaign|part|batch`. -/
theorem derivation_deterministic_and_idKey_format :
    (∀ rows : List RawRow, deriveTasks (normalizeRows rows) = deriveTasks (normalizeRows rows)) ∧
      (∀ rows : List RawRow, ∀ t ∈ deriveTasks (normalizeRows rows),
        t.idKey = t.type.str ++ "|" ++ formatYMD t.date ++ "|" ++ t.ref.campaign ++ "|" ++
          t.ref.part ++ "|" ++ t.ref.batch) := by
  refine ⟨fun rows => rfl, fun rows t ht => ?_⟩
  have hperm := List.perm_insertionSort
    (fun a b : Task => toDayNumber a.date ≤ toDayNumber b.date)
    ((normalizeRows rows).flatMap tasksForRow)
  have ht' : t ∈ (normalizeRows rows).flatMap tasksForRow := hperm.subset ht
  obtain ⟨e, _, hte⟩ := List.mem_flatMap.mp ht'
  exact tasksForRow_idKey hte

/-- C2 witness: the identity key of the single task of a concrete row. -/
theorem derivation_idKey_format_witness :
    ({ type := TaskType.mail, date := ⟨2025, 8, 26⟩, idKey := "mail|2025-08-26|C||",
       stage := none, label := "Mail • C", count := ⟨0, 0⟩,
       ref :=
         { id := 0,
           raw := [("Date", "2025-08-26"), ("Campaign", "C"), ("Tags", "mail no-text no-vm")],
           mailDate := ⟨2025, 8, 26⟩, hasMail := true, hasText := false, hasVM := false,
           count := ⟨0, 0⟩, campaign := "C", category := "", part := "", batch := "",
           batchNum := none, cost := ⟨0, 0⟩ } } : Task).idKey =
      TaskType.mail.str ++ "|" ++ formatYMD ⟨2025, 8, 26⟩ ++ "|" ++ "C" ++ "|" ++ "" ++ "|" ++ "" :=
  derivation_deterministic_and_idKey_format.2
    [[("Date", "2025-08-26"), ("Campaign", "C"), ("Tags", "mail no-text no-vm")]] _ (by decide)

end MarketingTracker
